import Mathlib

/-
Verification of the `piiredact` Go package (github.com/rmasci/piiredact).

The package detects and redacts PII (SSN, credit cards, phone numbers, bank
routing numbers, ...) in text chunks.  The core is a redaction engine that
applies an ordered list of regex patterns to a text, confirming candidate
matches with optional validator functions (Luhn checksum for credit cards,
SSA issuance rules for SSNs, the ABA weighted checksum for routing numbers),
and replaces each confirmed match with a formatted label such as "[SSN]".

This file gives a shallow embedding of that code:
* a small executable regular-expression matcher reproducing Go's RE2
  leftmost-first semantics for the constructs the package uses (ordered
  alternation, greedy single-character-class repetition, bounded repetition,
  ASCII word boundaries, capture groups);
* the nine built-in patterns (the repository carries two prototype variants
  of `builtinPatterns`; the variant embedded here is the second one, which is
  the variant the package's own tests and documented examples exercise, e.g.
  `4111 1111 1111 1111` redacting to `[CC]`);
* the validators `validateSSN`, `validateLuhn`, `validateABA`;
* the engine: `DefaultConfig`, `NewRedactionEngine`, `redactChunk`,
  `processChunks`, `Process`, `newMetrics`, `GetMetrics`;
* the standalone masking helpers `MaskSSN`, `MaskCreditCard`.

Texts are modelled as `List Char`.  All texts in the package's contract are
ASCII, so Go's byte offsets coincide with character offsets.  Wall-clock
fields (`ProcessingTimeNs`) and the optional logger are outside the
embedding; the goroutine worker pool of `processChunks` is modelled by its
deterministic denotation (each output index i holds `redactChunk` of input
index i, which is exactly what the indexed writes `result[i] = ...` produce).
-/

namespace Piiredact

/-! ## Character classes and word boundaries (Go `regexp`, ASCII) -/

/-- Go RE2 word characters: `[0-9A-Za-z_]`. -/
def isWordChar (c : Char) : Bool := c.isAlpha || c.isDigit || c == '_'

def optIsWord : Option Char → Bool
  | none => false
  | some c => isWordChar c

def headIsWord : List Char → Bool
  | [] => false
  | c :: _ => isWordChar c

/-- `\b`: a word boundary holds between the previous character (none at the
start of the text) and the first character of the remaining text. -/
def isBoundary (prev : Option Char) (s : List Char) : Bool :=
  optIsWord prev != headIsWord s

/-- Go RE2 `\s` (ASCII): `[\t\n\f\r ]`. -/
def isSpaceChar (c : Char) : Bool :=
  c == ' ' || c == '\t' || c == '\n' || c == '\x0c' || c == '\r'

/-! ## Regular expressions

The abstract syntax covers exactly the constructs appearing in the
package's patterns.  Unbounded repetition (`*`, `+`, `{2,}`) occurs in the
source only over single-character classes, so `rep` repeats a character
class; `+` is encoded as class followed by `rep`, bounded repetition by
unfolding, and `?` as an ordered alternation with the empty regex. -/

inductive Regexp where
  | eps : Regexp
  | cls (p : Char → Bool) : Regexp
  | seq (a b : Regexp) : Regexp
  | alt (a b : Regexp) : Regexp
  | rep (p : Char → Bool) : Regexp
  | wb : Regexp
  | grp (i : Nat) (r : Regexp) : Regexp

/-- A matcher state: the previous character (for `\b`), the remaining
suffix of the text, and the capture groups recorded so far. -/
structure MState where
  prev : Option Char
  rest : List Char
  caps : List (Nat × List Char)
  deriving Repr, DecidableEq

/-- Greedy matching of `p*`: results in preference order, longest first
(Go quantifiers are greedy). -/
def mrep (q : Char → Bool) : Option Char → List Char → List (Nat × List Char) → List MState
  | prev, [], caps => [⟨prev, [], caps⟩]
  | prev, c :: rest, caps =>
    (if q c then mrep q (some c) rest caps else []) ++ [⟨prev, c :: rest, caps⟩]

/-- All ways a regex can match a prefix of `s`, in Go's leftmost-first
preference order (first alternative preferred, greedy repetition).  The
head of the list is the match Go's engine selects at this position. -/
def mrun : Regexp → Option Char → List Char → List (Nat × List Char) → List MState
  | .eps, prev, s, caps => [⟨prev, s, caps⟩]
  | .cls q, _prev, s, caps =>
    match s with
    | [] => []
    | c :: rest => if q c then [⟨some c, rest, caps⟩] else []
  | .seq a b, prev, s, caps =>
    (mrun a prev s caps).flatMap fun st => mrun b st.prev st.rest st.caps
  | .alt a b, prev, s, caps => mrun a prev s caps ++ mrun b prev s caps
  | .rep q, prev, s, caps => mrep q prev s caps
  | .wb, prev, s, caps => if isBoundary prev s then [⟨prev, s, caps⟩] else []
  | .grp i r, prev, s, caps =>
    (mrun r prev s caps).map fun st =>
      ⟨st.prev, st.rest, st.caps ++ [(i, s.take (s.length - st.rest.length))]⟩

/-- Scan for the leftmost match: try the current position, else advance one
character.  Returns `(start, end, captures)` in absolute positions
(`pos` is the absolute position of the suffix `s`). -/
def findFromAux (r : Regexp) : Option Char → List Char → Nat → Option (Nat × Nat × List (Nat × List Char))
  | prev, s, pos =>
    match (mrun r prev s []).head? with
    | some st => some (pos, pos + (s.length - st.rest.length), st.caps)
    | none =>
      match s with
      | [] => none
      | c :: rest => findFromAux r (some c) rest (pos + 1)

/-- Go `Regexp.FindStringSubmatch`: leftmost match with captures. -/
def findSubmatch (r : Regexp) (s : List Char) : Option (Nat × Nat × List (Nat × List Char)) :=
  findFromAux r none s 0

/-- One step of `FindAllStringIndex`: after a match `[st, en)`, Go resumes at
`en`, or one character past an empty match. -/
def findAllAux (r : Regexp) : Nat → Option Char → List Char → Nat → List (Nat × Nat)
  | 0, _, _, _ => []
  | fuel + 1, prev, s, pos =>
    match findFromAux r prev s pos with
    | none => []
    | some (st, en, _) =>
      let nxt := if en = st then en + 1 else en
      let k := nxt - pos
      (st, en) :: findAllAux r fuel ((s.take k).getLastD '\x00' |> some) (s.drop k) nxt

/-- Go `Regexp.FindAllStringIndex re s (-1)`: all successive non-overlapping
leftmost matches, as `(start, end)` index pairs. -/
def findAll (r : Regexp) (s : List Char) : List (Nat × Nat) :=
  findAllAux r (s.length + 1) none s 0

/-! Combinators used to transcribe the concrete pattern strings. -/

def chr (c : Char) : Regexp := .cls fun d => d == c

def rseq : List Regexp → Regexp
  | [] => .eps
  | [r] => r
  | r :: rest => .seq r (rseq rest)

/-- `r?` (greedy: presence preferred). -/
def ropt (r : Regexp) : Regexp := .alt r .eps

/-- `p{n}` for a character class. -/
def crep (p : Char → Bool) : Nat → Regexp
  | 0 => .eps
  | n + 1 => .seq (.cls p) (crep p n)

/-- `p+` for a character class (greedy). -/
def cplus (p : Char → Bool) : Regexp := .seq (.cls p) (.rep p)

/-- `p{0,n}` for a character class (greedy: longer repetitions preferred). -/
def cupto (p : Char → Bool) : Nat → Regexp
  | 0 => .eps
  | n + 1 => ropt (.seq (.cls p) (cupto p n))

def digitC : Char → Bool := Char.isDigit

/-! ## Validators (pure functions from the source)

Go's `strconv.Atoi` on the digit-only slices used below reduces to decimal
parsing; `atoiOk` models the success condition for such slices (they are
never signed in this code). -/

def digitVal (c : Char) : Nat := c.toNat - ('0').toNat

def digitsToNat (l : List Char) : Nat := l.foldl (fun acc c => acc * 10 + digitVal c) 0

def atoiOk (l : List Char) : Bool := !l.isEmpty && l.all Char.isDigit

/-- The ten all-same-digit 9-character strings rejected by `validateSSN`. -/
def repeatedNines : List (List Char) :=
  [("000000000").toList, ("111111111").toList, ("222222222").toList,
   ("333333333").toList, ("444444444").toList, ("555555555").toList,
   ("666666666").toList, ("777777777").toList, ("888888888").toList,
   ("999999999").toList]

/-- `validateSSN` from the source: strips hyphens, rejects the ten repeated
digit strings, then rejects area 0/666/900+, group 00 and serial 0000.
Go's string slicing `cleaned[:3]`, `cleaned[3:5]`, `cleaned[5:]` is modelled
with `take`/`drop`; the Go code's domain (where no slice panics) is the
set of inputs whose cleaned form has at least 5 characters, and the engine
only ever calls it on 9-digit matches. -/
def validateSSN (ssn : List Char) : Bool :=
  let cleaned := ssn.filter fun c => c != '-'
  if repeatedNines.contains cleaned then false
  else
    let first3 := cleaned.take 3
    let middle2 := (cleaned.drop 3).take 2
    let last4 := cleaned.drop 5
    if !atoiOk first3 || digitsToNat first3 == 0 || digitsToNat first3 == 666 ||
        digitsToNat first3 ≥ 900 then false
    else if !atoiOk middle2 || digitsToNat middle2 == 0 then false
    else if !atoiOk last4 || digitsToNat last4 == 0 then false
    else true

/-- Doubling step of the Luhn algorithm: `digit *= 2; if digit > 9 { digit -= 9 }`. -/
def luhnDouble (d : Nat) : Nat := if 2 * d > 9 then 2 * d - 9 else 2 * d

/-- The right-to-left accumulation loop of `validateLuhn`: the input is the
digit string already reversed, `alt` is the `alternate` flag (false at the
rightmost digit). -/
def luhnLoop : List Char → Bool → Nat
  | [], _ => 0
  | c :: rest, alt =>
    (if alt then luhnDouble (digitVal c) else digitVal c) + luhnLoop rest (!alt)

/-- `validateLuhn` from the source: strips spaces and dashes, requires 13-19
digits, accepts iff the alternating-doubled digit sum is divisible by 10. -/
def validateLuhn (number : List Char) : Bool :=
  let n := number.filter fun c => c != ' ' && c != '-'
  if n.length < 13 || n.length > 19 || !n.all Char.isDigit then false
  else luhnLoop n.reverse false % 10 == 0

/-- `validateABA` from the source: exactly 9 digits, first digit not `'0'`,
weighted checksum `3(d1+d4+d7) + 7(d2+d5+d8) + (d3+d6+d9)` divisible by 10. -/
def validateABA (aba : List Char) : Bool :=
  if aba.length != 9 || !aba.all Char.isDigit then false
  else
    match aba with
    | [a, b, c, d, e, f, g, h, i] =>
      if a == '0' then false
      else
        (3 * (digitVal a + digitVal d + digitVal g) +
         7 * (digitVal b + digitVal e + digitVal h) +
         (digitVal c + digitVal f + digitVal i)) % 10 == 0
    | _ => false

/-! ## The built-in patterns (`builtinPatterns`, second variant)

Transcriptions of the pattern strings in `patterns.go`.  The repository
contains two prototype variants of `builtinPatterns`; this is the second
one, the variant exercised by the package's tests and documented examples. -/

def sepDash : Regexp := .cls fun c => c == '-' || c == ' '

def upperC : Char → Bool := Char.isUpper

/-- `\b(?:\d{3}-\d{2}-\d{4}|\d{9})\b` -/
def ssnRegex : Regexp :=
  rseq [.wb,
    .alt (rseq [crep digitC 3, chr '-', crep digitC 2, chr '-', crep digitC 4])
      (crep digitC 9),
    .wb]

/-- `\b(?:\d{4}[- ]?\d{4}[- ]?\d{4}[- ]?\d{4}|\d{16})\b` -/
def ccRegex : Regexp :=
  rseq [.wb,
    .alt (rseq [crep digitC 4, ropt sepDash, crep digitC 4, ropt sepDash,
                crep digitC 4, ropt sepDash, crep digitC 4])
      (crep digitC 16),
    .wb]

/-- `\b(?:\+?1[- ]?)?(?:\([0-9]{3}\)[- ]?|[0-9]{3}[- ]?)[0-9]{3}[- ]?[0-9]{4}\b` -/
def phoneRegex : Regexp :=
  rseq [.wb,
    ropt (rseq [ropt (chr '+'), chr '1', ropt sepDash]),
    .alt (rseq [chr '(', crep digitC 3, chr ')', ropt sepDash])
      (rseq [crep digitC 3, ropt sepDash]),
    crep digitC 3, ropt sepDash, crep digitC 4, .wb]

/-- `\b[0-9]{9}\b` -/
def abaRegex : Regexp := rseq [.wb, crep digitC 9, .wb]

/-- `\b(?:[A-Z][0-9]{7}|[A-Z][0-9]{8}|[A-Z]{2}[0-9]{6}|[0-9]{9})\b` -/
def dlRegex : Regexp :=
  rseq [.wb,
    .alt (rseq [.cls upperC, crep digitC 7])
      (.alt (rseq [.cls upperC, crep digitC 8])
        (.alt (rseq [.cls upperC, .cls upperC, crep digitC 6])
          (crep digitC 9))),
    .wb]

def emailLocalC (c : Char) : Bool :=
  c.isAlpha || c.isDigit || c == '.' || c == '_' || c == '%' || c == '+' || c == '-'

def emailDomainC (c : Char) : Bool :=
  c.isAlpha || c.isDigit || c == '.' || c == '-'

/-- `\b[a-zA-Z0-9._%+-]+@[a-zA-Z0-9.-]+\.[a-zA-Z]{2,}\b` -/
def emailRegex : Regexp :=
  rseq [.wb, cplus emailLocalC, chr '@', cplus emailDomainC, chr '.',
    .cls Char.isAlpha, .cls Char.isAlpha, .rep Char.isAlpha, .wb]

/-- `25[0-5]|2[0-4][0-9]|[01]?[0-9][0-9]?` -/
def ipOctet : Regexp :=
  .alt (rseq [chr '2', chr '5', .cls fun c => '0' ≤ c && c ≤ '5'])
    (.alt (rseq [chr '2', .cls (fun c => '0' ≤ c && c ≤ '4'), .cls digitC])
      (rseq [ropt (.cls fun c => c == '0' || c == '1'), .cls digitC,
             ropt (.cls digitC)]))

/-- `\b(?:(?:25[0-5]|2[0-4][0-9]|[01]?[0-9][0-9]?)\.){3}(?:25[0-5]|2[0-4][0-9]|[01]?[0-9][0-9]?)\b` -/
def ipRegex : Regexp :=
  rseq [.wb, ipOctet, chr '.', ipOctet, chr '.', ipOctet, chr '.', ipOctet, .wb]

/-- `\b[A-Z][0-9]{8}\b` -/
def passportRegex : Regexp := rseq [.wb, .cls upperC, crep digitC 8, .wb]

def dobSep : Regexp := .cls fun c => c == '/' || c == '.' || c == '-'

/-- `\b(?:0[1-9]|1[0-2])[/.-](?:0[1-9]|[12][0-9]|3[01])[/.-](?:19|20)\d{2}\b` -/
def dobRegex : Regexp :=
  rseq [.wb,
    .alt (rseq [chr '0', .cls fun c => '1' ≤ c && c ≤ '9'])
      (rseq [chr '1', .cls fun c => '0' ≤ c && c ≤ '2']),
    dobSep,
    .alt (rseq [chr '0', .cls fun c => '1' ≤ c && c ≤ '9'])
      (.alt (rseq [.cls (fun c => c == '1' || c == '2'), .cls digitC])
        (rseq [chr '3', .cls fun c => c == '0' || c == '1'])),
    dobSep,
    .alt (rseq [chr '1', chr '9']) (rseq [chr '2', chr '0']),
    crep digitC 2, .wb]

/-! ## The redaction engine (`masked.go`) -/

/-- A transcription chunk: unique identifier, speaker label, text body. -/
structure Chunk where
  UUID : String
  Speaker : String
  Text : List Char
  deriving Repr, DecidableEq

/-- A detection pattern: name (used in the replacement label), compiled
regex, and optional validation function. -/
structure PatternDef where
  Name : String
  Regex : Regexp
  Validate : Option (List Char → Bool)

/-- `builtinPatterns` in declaration order: SSN, CC, PHONE, ABA, DL, EMAIL,
IP, PASSPORT, DOB.  SSN, CC and ABA carry validators; the rest accept every
regex match. -/
def builtinPatterns : List PatternDef :=
  [⟨"SSN", ssnRegex, some validateSSN⟩,
   ⟨"CC", ccRegex, some validateLuhn⟩,
   ⟨"PHONE", phoneRegex, none⟩,
   ⟨"ABA", abaRegex, some validateABA⟩,
   ⟨"DL", dlRegex, none⟩,
   ⟨"EMAIL", emailRegex, none⟩,
   ⟨"IP", ipRegex, none⟩,
   ⟨"PASSPORT", passportRegex, none⟩,
   ⟨"DOB", dobRegex, none⟩]

/-- Engine configuration.  `EnabledPatterns` is Go's
`map[string]bool`, modelled as an association list (first entry wins, as
map keys are unique); a name absent from the map defaults to enabled. -/
structure Config where
  EnabledPatterns : List (String × Bool)
  CustomPatterns : List PatternDef
  RedactionFormat : List Char
  MaxConcurrency : Int
  Logging : Bool

/-- `DefaultConfig`: all built-in patterns enabled, format `"[%s]"`,
8 workers, no logging. -/
def DefaultConfig : Config :=
  { EnabledPatterns := builtinPatterns.map fun p => (p.Name, true)
    CustomPatterns := []
    RedactionFormat := ("[%s]").toList
    MaxConcurrency := 8
    Logging := false }

/-- Metrics counters.  `ProcessingTimeNs` measures wall-clock time and is
outside the embedding; the mutex is the concurrency-control mechanism and
has no denotational content. -/
structure Metrics where
  ProcessedChunks : Nat
  RedactedItems : List (String × Nat)
  deriving Repr, DecidableEq

/-- `newMetrics`: counters for all built-in patterns initialized to zero. -/
def newMetrics : Metrics :=
  { ProcessedChunks := 0
    RedactedItems := builtinPatterns.map fun p => (p.Name, 0) }

structure RedactionEngine where
  config : Config
  patterns : List PatternDef
  metrics : Metrics

/-- Pattern activation test of `NewRedactionEngine`:
`if enabled, exists := config.EnabledPatterns[p.Name]; !exists || enabled`. -/
def patternActive (cfg : Config) (p : PatternDef) : Bool :=
  match List.lookup p.Name cfg.EnabledPatterns with
  | none => true
  | some b => b

/-- `NewRedactionEngine`: active patterns are the enabled built-ins in
declaration order followed by the custom patterns; metrics start zeroed. -/
def NewRedactionEngine (config : Config) : RedactionEngine :=
  { config := config
    patterns := builtinPatterns.filter (patternActive config) ++ config.CustomPatterns
    metrics := newMetrics }

/-- `fmt.Sprintf` restricted to the format shapes the package uses: the
single `%s` verb is replaced by the argument and the remaining format text
is copied verbatim. -/
def sprintf1 : List Char → List Char → List Char
  | [], _ => []
  | '%' :: 's' :: rest, arg => arg ++ rest
  | c :: rest, arg => c :: sprintf1 rest arg

/-- Replace the span `[st, en)` of `t` by `rep`
(`redacted[:start] + replacement + redacted[end:]`). -/
def replaceSpan (t : List Char) (st en : Nat) (rep : List Char) : List Char :=
  t.take st ++ rep ++ t.drop en

def confirmOk : Option (List Char → Bool) → List Char → Bool
  | none, _ => true
  | some v, s => v s

/-- The inner loop of `redactChunk` for one pattern: find all matches on the
current text, then process them in reverse order of position (rightmost
first), replacing each match whose candidate substring passes validation
and counting the confirmed replacements. -/
def applyPattern (fmt : List Char) (p : PatternDef) (text : List Char) : List Char × Nat :=
  ((findAll p.Regex text).reverse).foldl
    (fun acc m =>
      let sub := (acc.1.drop m.1).take (m.2 - m.1)
      if confirmOk p.Validate sub then
        (replaceSpan acc.1 m.1 m.2 (sprintf1 fmt p.Name.toList), acc.2 + 1)
      else acc)
    (text, 0)

/-- `redactChunk` on the text body: apply each active pattern in order to
the (already partially redacted) text, accumulating the per-pattern counts
of confirmed redactions (`redactionCounts`; only patterns with a positive
count get an entry, as in the Go map). -/
def redactText (patterns : List PatternDef) (fmt : List Char) (text : List Char) :
    List Char × List (String × Nat) :=
  patterns.foldl
    (fun acc p =>
      let r := applyPattern fmt p acc.1
      (r.1, if r.2 > 0 then acc.2 ++ [(p.Name, r.2)] else acc.2))
    (text, [])

/-- `redactChunk`: identifier and speaker are returned unchanged, the text
body is redacted; the per-pattern counts are returned for the metrics
merge. -/
def redactChunk (e : RedactionEngine) (c : Chunk) : Chunk × List (String × Nat) :=
  let r := redactText e.patterns e.config.RedactionFormat c.Text
  (⟨c.UUID, c.Speaker, r.1⟩, r.2)

/-- `processChunks`: each output index `i` holds `redactChunk` of input
index `i`.  The Go code produces exactly this result both on the sequential
path (single chunk or `MaxConcurrency == 1`) and on the bounded worker-pool
path, where goroutine `i` executes `result[i] = e.redactChunk(c)` on its
privately owned chunk. -/
def processChunks (e : RedactionEngine) (chunks : List Chunk) :
    List (Chunk × List (String × Nat)) :=
  chunks.map (redactChunk e)

/-- `e.metrics.RedactedItems[name] += count`: increment an existing counter
or insert the name with `count` (Go maps read a missing key as zero). -/
def bumpItem : List (String × Nat) → String → Nat → List (String × Nat)
  | [], n, k => [(n, k)]
  | (m, v) :: rest, n, k =>
    if m == n then (m, v + k) :: rest else (m, v) :: bumpItem rest n k

def mergeCounts (items : List (String × Nat)) (counts : List (String × Nat)) :
    List (String × Nat) :=
  counts.foldl (fun it nk => bumpItem it nk.1 nk.2) items

/-- `Process`: redact every chunk, merge each chunk's redaction counts into
the metrics, add the batch size to `ProcessedChunks`, and return the
redacted chunks together with the (always nil) error.  The error component
is modelled as `Option String`, `none` standing for Go's `nil`. -/
def Process (e : RedactionEngine) (chunks : List Chunk) :
    List Chunk × Option String × RedactionEngine :=
  let results := processChunks e chunks
  let items := results.foldl (fun it r => mergeCounts it r.2) e.metrics.RedactedItems
  (results.map Prod.fst, none,
   { e with metrics := ⟨e.metrics.ProcessedChunks + chunks.length, items⟩ })

/-- `GetMetrics`: a deep copy of the current metrics (in the embedding,
the value itself). -/
def GetMetrics (e : RedactionEngine) : Metrics := e.metrics

/-! ## The standalone masking helpers (`masked.go`, first part) -/

def maskSep1 : Regexp := .cls fun c => isSpaceChar c || c == '-' || c == '.'

def maskSep2 : Regexp := .cls fun c => isSpaceChar c || c == '-'

/-- `(\d{3})[\s\-\.]?(\d{2})[\s\-\.]?(\d{4})` -/
def maskSSNRegex : Regexp :=
  rseq [.grp 1 (crep digitC 3), ropt maskSep1,
        .grp 2 (crep digitC 2), ropt maskSep1,
        .grp 3 (crep digitC 4)]

/-- `(\d{0,4})[\s\-]?(\d{0,4})[\s\-]?(\d{0,4})[\s\-]?(\d{4})` -/
def maskCCRegex : Regexp :=
  rseq [.grp 1 (cupto digitC 4), ropt maskSep2,
        .grp 2 (cupto digitC 4), ropt maskSep2,
        .grp 3 (cupto digitC 4), ropt maskSep2,
        .grp 4 (crep digitC 4)]

/-- `MaskSSN`: `"XXX-XX-" + match[3]` on the first submatch, the input
unchanged when the regex does not match. -/
def MaskSSN (ssn : List Char) : List Char :=
  match findSubmatch maskSSNRegex ssn with
  | some (_, _, caps) => ("XXX-XX-").toList ++ (List.lookup 3 caps).getD []
  | none => ssn

/-- `MaskCreditCard`: `"XXXX-XXXX-XXXX-" + match[4]` on the first submatch,
the input unchanged otherwise.  (Go additionally checks
`len(match) == 5`, which always holds for this four-group regex when the
match is non-nil.) -/
def MaskCreditCard (card : List Char) : List Char :=
  match findSubmatch maskCCRegex card with
  | some (_, _, caps) => ("XXXX-XXXX-XXXX-").toList ++ (List.lookup 4 caps).getD []
  | none => card

/-! ## Specification-side definitions

These definitions transcribe the wording of the specification claims (not
the code); the theorems below relate them to the code embeddings above. -/

/-- The claim's Luhn checksum: digits listed from the rightmost, every
second digit (the second-from-right, fourth-from-right, ...) doubled,
9 subtracted from doubled values above 9, everything summed. -/
def luhnClaimSum : List Nat → Nat
  | [] => 0
  | [d] => d
  | d :: e :: rest => d + (if 2 * e > 9 then 2 * e - 9 else 2 * e) + luhnClaimSum rest

/-- Auxiliary sum: as `luhnClaimSum` but with the first (rightmost
remaining) digit doubled; used to relate the source's alternating loop to
the claim's pairwise description. -/
def luhnClaimAux : List Nat → Nat
  | [] => 0
  | d :: rest => (if 2 * d > 9 then 2 * d - 9 else 2 * d) + luhnClaimSum rest

/-- The claim's SSN rejection condition on the hyphen-stripped 9-digit
sequence: a repeated-digit number, or area (first 3 digits) 0, 666 or
≥ 900, or group (digits 4-5) 0, or serial (digits 6-9) 0. -/
def ssnClaimReject (cleaned : List Char) : Prop :=
  cleaned ∈ repeatedNines ∨
  digitsToNat (cleaned.take 3) = 0 ∨
  digitsToNat (cleaned.take 3) = 666 ∨
  900 ≤ digitsToNat (cleaned.take 3) ∨
  digitsToNat ((cleaned.drop 3).take 2) = 0 ∨
  digitsToNat (cleaned.drop 5) = 0

/-- The digit of `s` at index `i` (0-based; the claim's `d1..d9` are
indices 0..8). -/
def abaDigit (s : List Char) (i : Nat) : Nat := digitVal (s.getD i '0')

/-- The claim's ABA weighted sum `3(d1+d4+d7) + 7(d2+d5+d8) + 1(d3+d6+d9)`. -/
def abaClaimSum (s : List Char) : Nat :=
  3 * (abaDigit s 0 + abaDigit s 3 + abaDigit s 6) +
  7 * (abaDigit s 1 + abaDigit s 4 + abaDigit s 7) +
  (abaDigit s 2 + abaDigit s 5 + abaDigit s 8)

/-- The default configuration with the `CC` pattern disabled
(`EnabledPatterns["CC"] = false`, everything else enabled). -/
def ccDisabledConfig : Config :=
  { DefaultConfig with
    EnabledPatterns := builtinPatterns.map fun p => (p.Name, p.Name != "CC") }

/-- The custom pattern `\bEMP-\d{6}\b` from the package's documented
custom-configuration example; used to witness the metrics claims. -/
def empRegex : Regexp :=
  rseq [.wb, chr 'E', chr 'M', chr 'P', chr '-', crep digitC 6, .wb]

def empConfig : Config :=
  { DefaultConfig with CustomPatterns := [⟨"EMPLOYEE_ID", empRegex, none⟩] }

/-! ## Claim theorems -/

/-- C1 (counterexample): the claim states that the ABA validator returns
true for "021000021"; in the code the first-digit-zero check
(`if aba[0] == '0' { return false }`) rejects it, so `validateABA` returns
false on this input. -/
theorem c1_counterexample : validateABA (("021000021").toList) = false := by rfl

/-- C1 (amended): the ABA validator returns false for both "021000021"
(rejected by the first-digit-zero rule despite its valid checksum) and
"021000022". -/
theorem c1_theorem :
    validateABA (("021000021").toList) = false ∧
    validateABA (("021000022").toList) = false := ⟨rfl, rfl⟩

/-- C2: under the default configuration, "My SSN is 123-45-6789" redacts to
"My SSN is [SSN]" and "my card is 4111 1111 1111 1111" redacts to
"my card is [CC]"; with the CC pattern disabled,
"card 4111 1111 1111 1111" passes through unchanged. -/
theorem c2_theorem :
    (Process (NewRedactionEngine DefaultConfig)
        [⟨"u1", "A", ("My SSN is 123-45-6789").toList⟩]).1 =
      [⟨"u1", "A", ("My SSN is [SSN]").toList⟩] ∧
    (Process (NewRedactionEngine DefaultConfig)
        [⟨"u2", "B", ("my card is 4111 1111 1111 1111").toList⟩]).1 =
      [⟨"u2", "B", ("my card is [CC]").toList⟩] ∧
    (Process (NewRedactionEngine ccDisabledConfig)
        [⟨"u3", "A", ("card 4111 1111 1111 1111").toList⟩]).1 =
      [⟨"u3", "A", ("card 4111 1111 1111 1111").toList⟩] :=
  ⟨rfl, rfl, rfl⟩

/-- C3: `Process` preserves the batch length, and every output record keeps
the identifier (`UUID`) and label (`Speaker`) of the input record at the
same index; since a `Chunk` consists of exactly these two fields plus
`Text`, only the text body can differ. -/
theorem c3_theorem : ∀ (e : RedactionEngine) (chunks : List Chunk),
    (Process e chunks).1.length = chunks.length ∧
    ∀ i : Nat,
      ((Process e chunks).1[i]?).map Chunk.UUID = (chunks[i]?).map Chunk.UUID ∧
      ((Process e chunks).1[i]?).map Chunk.Speaker = (chunks[i]?).map Chunk.Speaker := by
  intro e chunks
  refine ⟨by simp [Process, processChunks], fun i => ?_⟩
  constructor <;>
    · simp only [Process, processChunks, List.map_map, List.getElem?_map]
      cases chunks[i]? <;> rfl

/-- The source's alternating right-to-left loop computes the claim's
pairwise sum: on the reversed digit string, starting with the flag off, it
equals `luhnClaimSum`; starting with the flag on, `luhnClaimAux`. -/
theorem luhnLoop_eq_claim : ∀ l : List Char,
    luhnLoop l false = luhnClaimSum (l.map digitVal) ∧
    luhnLoop l true = luhnClaimAux (l.map digitVal) := by
  intro l
  induction l with
  | nil => exact ⟨rfl, rfl⟩
  | cons c rest ih =>
    constructor
    · show digitVal c + luhnLoop rest true = _
      rw [ih.2]
      cases rest with
      | nil => simp [luhnClaimSum, luhnClaimAux]
      | cons e rest2 =>
        simp only [List.map_cons, luhnClaimSum, luhnClaimAux]
        omega
    · show luhnDouble (digitVal c) + luhnLoop rest false = _
      rw [ih.1]
      simp only [List.map_cons, luhnClaimAux, luhnDouble]

/-- C4: the Luhn validator strips spaces and hyphens, rejects unless the
result is 13 to 19 digits, and otherwise accepts exactly when the claim's
checksum (doubling every second digit from the right, subtracting 9 from
doubled values above 9, summing) is divisible by 10; it accepts
"4111111111111111" and rejects "4111111111111112". -/
theorem c4_theorem :
    (∀ s : List Char,
       validateLuhn s = true ↔
         (13 ≤ (s.filter fun c => c != ' ' && c != '-').length ∧
          (s.filter fun c => c != ' ' && c != '-').length ≤ 19 ∧
          (s.filter fun c => c != ' ' && c != '-').all Char.isDigit = true ∧
          luhnClaimSum
              (((s.filter fun c => c != ' ' && c != '-').reverse).map digitVal) % 10
            = 0)) ∧
    validateLuhn (("4111111111111111").toList) = true ∧
    validateLuhn (("4111111111111112").toList) = false := by
  refine ⟨fun s => ?_, rfl, rfl⟩
  simp only [validateLuhn]
  rw [(luhnLoop_eq_claim (s.filter fun c => c != ' ' && c != '-').reverse).1]
  split
  · rename_i hcond
    simp only [Bool.or_eq_true, decide_eq_true_eq, Bool.not_eq_true'] at hcond
    constructor
    · intro hfalse; exact absurd hfalse (by simp)
    · rintro ⟨h13, h19, hall, _⟩
      rcases hcond with (h | h) | h
      · omega
      · omega
      · simp [h] at hall
  · rename_i hcond
    have h3 : (s.filter fun c => c != ' ' && c != '-').all Char.isDigit = true := by
      cases hb : (s.filter fun c => c != ' ' && c != '-').all Char.isDigit
      · exact absurd (by simp [hb]) hcond
      · rfl
    have h1 : ¬ ((s.filter fun c => c != ' ' && c != '-').length < 13) :=
      fun hl => hcond (by simp [hl])
    have h2 : ¬ ((s.filter fun c => c != ' ' && c != '-').length > 19) :=
      fun hl => hcond (by simp [hl])
    simp only [beq_iff_eq]
    constructor
    · intro hmod
      exact ⟨by omega, by omega, h3, hmod⟩
    · exact fun h => h.2.2.2

/-- `strconv.Atoi` succeeds on a nonempty digit string. -/
theorem atoiOk_of_digits (l : List Char) (h1 : l.length ≠ 0)
    (h2 : l.all Char.isDigit = true) : atoiOk l = true := by
  cases l with
  | nil => exact absurd rfl h1
  | cons c t => simp [atoiOk, h2]

theorem all_take_of_all (l : List Char) (p : Char → Bool) (n : Nat)
    (h : l.all p = true) : (l.take n).all p = true :=
  List.all_eq_true.mpr fun x hx => List.all_eq_true.mp h x (List.mem_of_mem_take hx)

theorem all_drop_of_all (l : List Char) (p : Char → Bool) (n : Nat)
    (h : l.all p = true) : (l.drop n).all p = true :=
  List.all_eq_true.mpr fun x hx => List.all_eq_true.mp h x (List.mem_of_mem_drop hx)

/-- C5: on inputs whose hyphen-stripped form is a 9-digit sequence (the
shape the SSN regex guarantees, and the domain on which the Go slicing is
defined), `validateSSN` accepts exactly when none of the claim's rejection
rules applies; concretely it rejects "000000000", "666000000", "900000000"
and "123006789", and accepts "123456789". -/
theorem c5_theorem :
    (∀ s : List Char,
       (s.filter fun c => c != '-').length = 9 →
       (s.filter fun c => c != '-').all Char.isDigit = true →
       (validateSSN s = true ↔ ¬ ssnClaimReject (s.filter fun c => c != '-'))) ∧
    validateSSN (("000000000").toList) = false ∧
    validateSSN (("666000000").toList) = false ∧
    validateSSN (("900000000").toList) = false ∧
    validateSSN (("123006789").toList) = false ∧
    validateSSN (("123456789").toList) = true := by
  refine ⟨fun s hlen hdig => ?_, rfl, rfl, rfl, rfl, rfl⟩
  have h3 : atoiOk ((s.filter fun c => c != '-').take 3) = true := by
    refine atoiOk_of_digits _ ?_ (all_take_of_all _ _ _ hdig)
    rw [List.length_take, hlen]; decide
  have h2m : atoiOk (((s.filter fun c => c != '-').drop 3).take 2) = true := by
    refine atoiOk_of_digits _ ?_ (all_take_of_all _ _ _ (all_drop_of_all _ _ _ hdig))
    rw [List.length_take, List.length_drop, hlen]; decide
  have h4 : atoiOk ((s.filter fun c => c != '-').drop 5) = true := by
    refine atoiOk_of_digits _ ?_ (all_drop_of_all _ _ _ hdig)
    rw [List.length_drop, hlen]; decide
  simp only [validateSSN]
  split_ifs with hrep ha hb hc
  · exact ⟨fun h => absurd h (by simp),
      fun hnrej => absurd (Or.inl (List.elem_iff.mp hrep)) hnrej⟩
  · simp only [h3, Bool.not_true, Bool.false_or, Bool.or_eq_true, beq_iff_eq,
      decide_eq_true_eq] at ha
    refine ⟨fun h => absurd h (by simp), fun hnrej => ?_⟩
    rcases ha with (h | h) | h
    · exact absurd (Or.inr (Or.inl h)) hnrej
    · exact absurd (Or.inr (Or.inr (Or.inl h))) hnrej
    · exact absurd (Or.inr (Or.inr (Or.inr (Or.inl h)))) hnrej
  · simp only [h2m, Bool.not_true, Bool.false_or, beq_iff_eq] at hb
    exact ⟨fun h => absurd h (by simp), fun hnrej =>
      absurd (Or.inr (Or.inr (Or.inr (Or.inr (Or.inl hb))))) hnrej⟩
  · simp only [h4, Bool.not_true, Bool.false_or, beq_iff_eq] at hc
    exact ⟨fun h => absurd h (by simp), fun hnrej =>
      absurd (Or.inr (Or.inr (Or.inr (Or.inr (Or.inr hc))))) hnrej⟩
  · refine ⟨fun _ => ?_, fun _ => rfl⟩
    intro hrej
    rcases hrej with h | h | h | h | h | h
    · exact hrep (List.elem_iff.mpr h)
    · exact ha (by simp [h])
    · exact ha (by simp [h])
    · exact ha (by simp [h])
    · exact hb (by simp [h])
    · exact hc (by simp [h])

/-- C5 witness: the general part of the theorem applied at "123456789". -/
theorem c5_witness :
    ((("123456789").toList.filter fun c => c != '-').length = 9 ∧
     (("123456789").toList.filter fun c => c != '-').all Char.isDigit = true) ∧
    (validateSSN (("123456789").toList) = true ↔
      ¬ ssnClaimReject (("123456789").toList.filter fun c => c != '-')) :=
  ⟨⟨by decide, by decide⟩, c5_theorem.1 (("123456789").toList) (by decide) (by decide)⟩

/-- C6: `validateABA` returns false for any input that is not exactly nine
digits or whose first digit is '0', and on nine-digit inputs with a nonzero
first digit accepts exactly when the claim's weighted sum
`3(d1+d4+d7) + 7(d2+d5+d8) + 1(d3+d6+d9)` is divisible by 10. -/
theorem c6_theorem : ∀ s : List Char,
    validateABA s = true ↔
      (s.length = 9 ∧ s.all Char.isDigit = true ∧ s.head? ≠ some '0' ∧
       abaClaimSum s % 10 = 0) := by
  intro s
  rcases s with _ | ⟨a, _ | ⟨b, _ | ⟨c, _ | ⟨d, _ | ⟨e, _ | ⟨f, _ | ⟨g, _ | ⟨h, _ | ⟨i, rest⟩⟩⟩⟩⟩⟩⟩⟩⟩
  · simp [validateABA]
  · simp [validateABA]
  · simp [validateABA]
  · simp [validateABA]
  · simp [validateABA]
  · simp [validateABA]
  · simp [validateABA]
  · simp [validateABA]
  · simp [validateABA]
  rcases rest with _ | ⟨j, rest2⟩
  · cases hall : ([a, b, c, d, e, f, g, h, i] : List Char).all Char.isDigit
    · simp [validateABA, hall]
    · cases ha0 : a == '0'
      · have hne0 : a ≠ '0' := beq_eq_false_iff_ne.mp ha0
        simp only [validateABA, hall, ha0, List.length_cons, List.length_nil]
        simp [abaClaimSum, abaDigit, hne0]
      · have he0 : a = '0' := beq_iff_eq.mp ha0
        subst he0
        simp [validateABA, hall]
  · simp only [validateABA, List.length_cons]
    have hne : ((rest2.length + 1 + 1 + 1 + 1 + 1 + 1 + 1 + 1 + 1 + 1 : Nat) != 9) = true := by
      simp only [bne_iff_ne, ne_eq]; omega
    simp [hne]

/-- C8: `Process` never fails: the error component is always `none` (Go's
`nil`), and the output batch has one record per input record. -/
theorem c8_theorem : ∀ (e : RedactionEngine) (chunks : List Chunk),
    (Process e chunks).2.1 = none ∧
    (Process e chunks).1.length = chunks.length := by
  intro e chunks
  exact ⟨rfl, by simp [Process, processChunks]⟩

/-! Association-list lemmas for the metrics map. -/

theorem lookup_map_zero (l : List PatternDef) (n : String) :
    List.lookup n (l.map fun p => (p.Name, (0 : Nat))) =
      if n ∈ l.map PatternDef.Name then some 0 else none := by
  induction l with
  | nil => rfl
  | cons p rest ih =>
    simp only [List.map_cons, List.lookup, List.mem_cons]
    cases hb : n == p.Name
    · have hne : ¬ n = p.Name := beq_eq_false_iff_ne.mp hb
      rw [ih]
      by_cases hm : n ∈ rest.map PatternDef.Name
      · simp [hm, hne]
      · simp [hm, hne]
    · have he : n = p.Name := beq_iff_eq.mp hb
      simp [he]

theorem lookup_bumpItem_ne (items : List (String × Nat)) (m n : String) (k : Nat)
    (hmn : (m == n) = false) :
    List.lookup m (bumpItem items n k) = List.lookup m items := by
  induction items with
  | nil => simp [bumpItem, List.lookup, hmn]
  | cons it rest ih =>
    obtain ⟨a, v⟩ := it
    simp only [bumpItem]
    cases hb : a == n
    · simp only [Bool.false_eq_true, if_false]
      simp only [List.lookup, ih]
    · simp only [if_true]
      have han : a = n := beq_iff_eq.mp hb
      have hma : (m == a) = false := by subst han; exact hmn
      simp only [List.lookup, hma]

theorem isSome_lookup_bumpItem_self (items : List (String × Nat)) (n : String) (k : Nat) :
    (List.lookup n (bumpItem items n k)).isSome = true := by
  induction items with
  | nil => simp [bumpItem, List.lookup]
  | cons it rest ih =>
    obtain ⟨a, v⟩ := it
    simp only [bumpItem]
    cases hb : a == n
    · simp only [Bool.false_eq_true, if_false]
      have hna : (n == a) = false := by
        cases hnb : n == a
        · rfl
        · exact absurd (beq_iff_eq.mp hnb).symm (beq_eq_false_iff_ne.mp hb)
      simp only [List.lookup, hna]
      exact ih
    · simp only [if_true]
      have hna : (n == a) = true := by
        rw [beq_iff_eq]; exact (beq_iff_eq.mp hb).symm
      simp [List.lookup, hna]

theorem isSome_lookup_bumpItem_mono (items : List (String × Nat)) (m n : String) (k : Nat)
    (h : (List.lookup m items).isSome = true) :
    (List.lookup m (bumpItem items n k)).isSome = true := by
  cases hb : m == n
  · rw [lookup_bumpItem_ne _ _ _ _ hb]; exact h
  · have he : m = n := beq_iff_eq.mp hb
    subst he
    exact isSome_lookup_bumpItem_self _ _ _

theorem lookup_mergeCounts_of_all_ne (counts : List (String × Nat))
    (items : List (String × Nat)) (n : String)
    (h : (counts.all fun nk => nk.1 != n) = true) :
    List.lookup n (mergeCounts items counts) = List.lookup n items := by
  induction counts generalizing items with
  | nil => rfl
  | cons c rest ih =>
    simp only [List.all_cons, Bool.and_eq_true] at h
    show List.lookup n (mergeCounts (bumpItem items c.1 c.2) rest) = _
    rw [ih _ h.2]
    refine lookup_bumpItem_ne _ _ _ _ ?_
    cases hnb : n == c.1
    · rfl
    · exact absurd (beq_iff_eq.mp hnb).symm (bne_iff_ne.mp h.1)

theorem isSome_lookup_mergeCounts_mono (counts : List (String × Nat))
    (items : List (String × Nat)) (m : String)
    (h : (List.lookup m items).isSome = true) :
    (List.lookup m (mergeCounts items counts)).isSome = true := by
  induction counts generalizing items with
  | nil => exact h
  | cons c rest ih =>
    show (List.lookup m (mergeCounts (bumpItem items c.1 c.2) rest)).isSome = true
    exact ih _ (isSome_lookup_bumpItem_mono _ _ _ _ h)

theorem isSome_lookup_mergeCounts_of_any (counts : List (String × Nat))
    (items : List (String × Nat)) (n : String)
    (h : (counts.any fun nk => nk.1 == n) = true) :
    (List.lookup n (mergeCounts items counts)).isSome = true := by
  induction counts generalizing items with
  | nil => cases h
  | cons c rest ih =>
    simp only [List.any_cons, Bool.or_eq_true] at h
    show (List.lookup n (mergeCounts (bumpItem items c.1 c.2) rest)).isSome = true
    rcases h with h | h
    · refine isSome_lookup_mergeCounts_mono _ _ _ ?_
      have he : n = c.1 := (beq_iff_eq.mp h).symm
      rw [he]
      exact isSome_lookup_bumpItem_self _ _ _
    · exact ih _ h

theorem lookup_foldl_merge_of_all (results : List (Chunk × List (String × Nat)))
    (items : List (String × Nat)) (n : String)
    (h : (results.all fun r => r.2.all fun nk => nk.1 != n) = true) :
    List.lookup n (results.foldl (fun it r => mergeCounts it r.2) items) =
      List.lookup n items := by
  induction results generalizing items with
  | nil => rfl
  | cons r rest ih =>
    simp only [List.all_cons, Bool.and_eq_true] at h
    show List.lookup n
        (rest.foldl (fun it r => mergeCounts it r.2) (mergeCounts items r.2)) = _
    rw [ih _ h.2, lookup_mergeCounts_of_all_ne _ _ _ h.1]

theorem isSome_lookup_foldl_merge_mono (results : List (Chunk × List (String × Nat)))
    (items : List (String × Nat)) (m : String)
    (h : (List.lookup m items).isSome = true) :
    (List.lookup m (results.foldl (fun it r => mergeCounts it r.2) items)).isSome = true := by
  induction results generalizing items with
  | nil => exact h
  | cons r rest ih =>
    show (List.lookup m
        (rest.foldl (fun it r => mergeCounts it r.2) (mergeCounts items r.2))).isSome = true
    exact ih _ (isSome_lookup_mergeCounts_mono _ _ _ h)

theorem isSome_lookup_foldl_merge_of_any (results : List (Chunk × List (String × Nat)))
    (items : List (String × Nat)) (n : String)
    (h : (results.any fun r => r.2.any fun nk => nk.1 == n) = true) :
    (List.lookup n (results.foldl (fun it r => mergeCounts it r.2) items)).isSome = true := by
  induction results generalizing items with
  | nil => cases h
  | cons r rest ih =>
    simp only [List.any_cons, Bool.or_eq_true] at h
    show (List.lookup n
        (rest.foldl (fun it r => mergeCounts it r.2) (mergeCounts items r.2))).isSome = true
    rcases h with h | h
    · exact isSome_lookup_foldl_merge_mono _ _ _
        (isSome_lookup_mergeCounts_of_any _ _ _ h)
    · exact ih _ h

/-- C9: on a fresh engine the metrics map holds exactly the built-in
pattern names, each at zero (so a custom pattern's name is absent whenever
it is not also a built-in name); processing batches in which a pattern
named `n` confirms no redaction leaves the `n` entry untouched (in
particular absent), and a batch with a confirmed redaction by `n` makes
`n` present in the map. -/
theorem c9_theorem :
    (∀ (cfg : Config) (n : String),
       List.lookup n (GetMetrics (NewRedactionEngine cfg)).RedactedItems =
         if n ∈ builtinPatterns.map PatternDef.Name then some 0 else none) ∧
    (∀ (e : RedactionEngine) (chunks : List Chunk) (n : String),
       ((processChunks e chunks).any fun r => r.2.any fun nk => nk.1 == n) = false →
       List.lookup n (GetMetrics (Process e chunks).2.2).RedactedItems =
         List.lookup n (GetMetrics e).RedactedItems) ∧
    (∀ (e : RedactionEngine) (chunks : List Chunk) (n : String),
       ((processChunks e chunks).any fun r => r.2.any fun nk => nk.1 == n) = true →
       (List.lookup n (GetMetrics (Process e chunks).2.2).RedactedItems).isSome = true) := by
  refine ⟨fun cfg n => lookup_map_zero builtinPatterns n, fun e chunks n h => ?_, fun e chunks n h => ?_⟩
  · show List.lookup n ((processChunks e chunks).foldl (fun it r => mergeCounts it r.2)
        e.metrics.RedactedItems) = _
    refine lookup_foldl_merge_of_all _ _ _ ?_
    rw [List.any_eq_false] at h
    refine List.all_eq_true.mpr fun r hr => ?_
    refine List.all_eq_true.mpr fun nk hnk => ?_
    have hne := h r hr
    rw [Bool.not_eq_true, List.any_eq_false] at hne
    have hth := hne nk hnk
    cases hxb : nk.1 == n
    · simp [bne, hxb]
    · exact absurd hxb hth
  · exact isSome_lookup_foldl_merge_of_any _ _ _ h

/-- C9 witness: with the documented `EMPLOYEE_ID` custom pattern, the name
is absent on the fresh engine, stays absent after a batch in which the
pattern fires nowhere, and is present after a batch in which it confirms a
redaction. -/
theorem c9_witness :
    List.lookup "EMPLOYEE_ID"
        (GetMetrics (NewRedactionEngine empConfig)).RedactedItems = none ∧
    List.lookup "EMPLOYEE_ID"
        (GetMetrics (Process (NewRedactionEngine empConfig)
          [⟨"id2", "B", ("no identifiers here").toList⟩]).2.2).RedactedItems =
      List.lookup "EMPLOYEE_ID"
        (GetMetrics (NewRedactionEngine empConfig)).RedactedItems ∧
    (List.lookup "EMPLOYEE_ID"
        (GetMetrics (Process (NewRedactionEngine empConfig)
          [⟨"id1", "A", ("My employee ID is EMP-123456").toList⟩]).2.2).RedactedItems).isSome
      = true := by
  refine ⟨?_, ?_, ?_⟩
  · rw [c9_theorem.1 empConfig]
    decide
  · exact c9_theorem.2.1 (NewRedactionEngine empConfig) _ "EMPLOYEE_ID" (by decide)
  · exact c9_theorem.2.2 (NewRedactionEngine empConfig) _ "EMPLOYEE_ID" (by decide)


/-! Matcher characterization lemmas for the masking helpers (C10). -/

theorem mem_mrun_seq (a b : Regexp) (prev : Option Char) (s : List Char)
    (caps : List (Nat × List Char)) (st : MState) :
    st ∈ mrun (.seq a b) prev s caps ↔
      ∃ mid ∈ mrun a prev s caps, st ∈ mrun b mid.prev mid.rest mid.caps := by
  simp [mrun, List.mem_flatMap]

theorem mem_mrun_alt (a b : Regexp) (prev : Option Char) (s : List Char)
    (caps : List (Nat × List Char)) (st : MState) :
    st ∈ mrun (.alt a b) prev s caps ↔
      st ∈ mrun a prev s caps ∨ st ∈ mrun b prev s caps := by
  simp [mrun]

theorem mem_mrun_eps (prev : Option Char) (s : List Char)
    (caps : List (Nat × List Char)) (st : MState) :
    st ∈ mrun .eps prev s caps ↔ st = ⟨prev, s, caps⟩ := by
  simp [mrun]

theorem mrun_crep_shape (p : Char → Bool) :
    ∀ (n : Nat) (prev : Option Char) (s : List Char) (caps : List (Nat × List Char))
      (st : MState), st ∈ mrun (crep p n) prev s caps →
      st.caps = caps ∧ st.rest = s.drop n ∧ n ≤ s.length ∧ (s.take n).all p = true := by
  intro n
  induction n with
  | zero =>
    intro prev s caps st hm
    simp only [crep, mrun, List.mem_singleton] at hm
    subst hm
    simp
  | succ n ih =>
    intro prev s caps st hm
    rw [crep, mem_mrun_seq] at hm
    obtain ⟨mid, hmid, hst⟩ := hm
    cases s with
    | nil => simp [mrun] at hmid
    | cons c rest =>
      simp only [mrun] at hmid
      by_cases hpc : p c
      · rw [if_pos hpc] at hmid
        simp only [List.mem_singleton] at hmid
        subst hmid
        obtain ⟨h1, h2, h3, h4⟩ := ih (some c) rest caps st hst
        refine ⟨h1, by simpa using h2, by simpa using h3, ?_⟩
        simp [List.take_succ_cons, hpc, h4]
      · rw [if_neg hpc] at hmid
        cases hmid

theorem mrun_cupto_shape (p : Char → Bool) :
    ∀ (n : Nat) (prev : Option Char) (s : List Char) (caps : List (Nat × List Char))
      (st : MState), st ∈ mrun (cupto p n) prev s caps →
      st.caps = caps ∧ ∃ k, k ≤ n ∧ st.rest = s.drop k ∧ k ≤ s.length ∧
        (s.take k).all p = true := by
  intro n
  induction n with
  | zero =>
    intro prev s caps st hm
    simp only [cupto, mrun, List.mem_singleton] at hm
    subst hm
    exact ⟨rfl, 0, by simp⟩
  | succ n ih =>
    intro prev s caps st hm
    rw [cupto, ropt, mem_mrun_alt] at hm
    rcases hm with hm | hm
    · rw [mem_mrun_seq] at hm
      obtain ⟨mid, hmid, hst⟩ := hm
      cases s with
      | nil => simp [mrun] at hmid
      | cons c rest =>
        simp only [mrun] at hmid
        by_cases hpc : p c
        · rw [if_pos hpc] at hmid
          simp only [List.mem_singleton] at hmid
          subst hmid
          obtain ⟨h1, k, hk, h2, h3, h4⟩ := ih (some c) rest caps st hst
          refine ⟨h1, k + 1, by omega, by simpa using h2,
            by simp only [List.length_cons]; omega, ?_⟩
          simp [List.take_succ_cons, hpc, h4]
        · rw [if_neg hpc] at hmid
          cases hmid
    · rw [mem_mrun_eps] at hm
      subst hm
      exact ⟨rfl, 0, by simp⟩

theorem mrun_ropt_cls_shape (q : Char → Bool) (prev : Option Char) (s : List Char)
    (caps : List (Nat × List Char)) (st : MState)
    (hm : st ∈ mrun (ropt (.cls q)) prev s caps) :
    st.caps = caps ∧ ∃ k, k ≤ 1 ∧ st.rest = s.drop k ∧ k ≤ s.length := by
  rw [ropt, mem_mrun_alt] at hm
  rcases hm with hm | hm
  · cases s with
    | nil => simp [mrun] at hm
    | cons c rest =>
      simp only [mrun] at hm
      by_cases hqc : q c
      · rw [if_pos hqc] at hm
        simp only [List.mem_singleton] at hm
        subst hm
        exact ⟨rfl, 1, by omega, by simp, by simp⟩
      · rw [if_neg hqc] at hm
        cases hm
  · rw [mem_mrun_eps] at hm
    subst hm
    exact ⟨rfl, 0, by simp⟩

theorem mrun_grp_crep_shape (p : Char → Bool) (i n : Nat) (prev : Option Char)
    (s : List Char) (caps : List (Nat × List Char)) (st : MState)
    (hm : st ∈ mrun (.grp i (crep p n)) prev s caps) :
    st.caps = caps ++ [(i, s.take n)] ∧ st.rest = s.drop n ∧ n ≤ s.length ∧
      (s.take n).all p = true := by
  simp only [mrun, List.mem_map] at hm
  obtain ⟨m, hmem, hst⟩ := hm
  obtain ⟨h1, h2, h3, h4⟩ := mrun_crep_shape p n prev s caps m hmem
  subst hst
  refine ⟨?_, by simpa using h2, h3, h4⟩
  rw [h1, h2, List.length_drop]
  have harg : s.length - (s.length - n) = n := by omega
  rw [harg]

theorem mrun_grp_cupto_shape (p : Char → Bool) (i n : Nat) (prev : Option Char)
    (s : List Char) (caps : List (Nat × List Char)) (st : MState)
    (hm : st ∈ mrun (.grp i (cupto p n)) prev s caps) :
    ∃ k, k ≤ n ∧ st.caps = caps ++ [(i, s.take k)] ∧ st.rest = s.drop k ∧
      k ≤ s.length ∧ (s.take k).all p = true := by
  simp only [mrun, List.mem_map] at hm
  obtain ⟨m, hmem, hst⟩ := hm
  obtain ⟨h1, k, hk, h2, h3, h4⟩ := mrun_cupto_shape p n prev s caps m hmem
  subst hst
  refine ⟨k, hk, ?_, by simpa using h2, h3, h4⟩
  rw [h1, h2, List.length_drop]
  have harg : s.length - (s.length - k) = k := by omega
  rw [harg]

theorem findFromAux_some (r : Regexp) :
    ∀ (s : List Char) (prev : Option Char) (pos : Nat)
      (res : Nat × Nat × List (Nat × List Char)),
      findFromAux r prev s pos = some res →
      ∃ (j : Nat) (prev2 : Option Char) (st : MState),
        st ∈ mrun r prev2 (s.drop j) [] ∧
        res.1 = pos + j ∧
        res.2.1 = res.1 + ((s.drop j).length - st.rest.length) ∧
        res.2.2 = st.caps ∧ j ≤ s.length := by
  intro s
  induction s with
  | nil =>
    intro prev pos res h
    rw [findFromAux] at h
    cases hh : (mrun r prev [] []).head? with
    | none => rw [hh] at h; cases h
    | some st =>
      rw [hh] at h
      injection h with h
      subst h
      exact ⟨0, prev, st, List.mem_of_mem_head? (by simp [hh]), by simp, by simp, rfl, by simp⟩
  | cons c rest ih =>
    intro prev pos res h
    rw [findFromAux] at h
    cases hh : (mrun r prev (c :: rest) []).head? with
    | some st =>
      rw [hh] at h
      injection h with h
      subst h
      exact ⟨0, prev, st, List.mem_of_mem_head? (by simp [hh]), by simp, by simp, rfl, by simp⟩
    | none =>
      rw [hh] at h
      obtain ⟨j, prev2, st, hmem, h1, h2, h3, hj⟩ := ih (some c) (pos + 1) res h
      refine ⟨j + 1, prev2, st, by simpa using hmem, by omega, ?_, h3,
        by simp only [List.length_cons]; omega⟩
      simpa using h2

theorem mrun_maskSSN_shape (prev : Option Char) (s : List Char) (st : MState)
    (h : st ∈ mrun maskSSNRegex prev s []) :
    ∃ j, List.lookup 3 st.caps = some ((s.drop j).take 4) ∧
      st.rest = s.drop (j + 4) ∧ j + 4 ≤ s.length ∧
      ((s.drop j).take 4).all Char.isDigit = true := by
  rw [show maskSSNRegex = .seq (.grp 1 (crep digitC 3)) (.seq (ropt maskSep1)
      (.seq (.grp 2 (crep digitC 2)) (.seq (ropt maskSep1) (.grp 3 (crep digitC 4)))))
    from rfl, mem_mrun_seq] at h
  obtain ⟨m1, hm1, h⟩ := h
  rw [mem_mrun_seq] at h
  obtain ⟨m2, hm2, h⟩ := h
  rw [mem_mrun_seq] at h
  obtain ⟨m3, hm3, h⟩ := h
  rw [mem_mrun_seq] at h
  obtain ⟨m4, hm4, h⟩ := h
  obtain ⟨c1, r1, l1, d1⟩ := mrun_grp_crep_shape digitC 1 3 prev s [] m1 hm1
  obtain ⟨c2, k1, hk1, r2, l2⟩ := mrun_ropt_cls_shape _ m1.prev m1.rest m1.caps m2 hm2
  obtain ⟨c3, r3, l3, d3⟩ := mrun_grp_crep_shape digitC 2 2 m2.prev m2.rest m2.caps m3 hm3
  obtain ⟨c4, k2, hk2, r4, l4⟩ := mrun_ropt_cls_shape _ m3.prev m3.rest m3.caps m4 hm4
  obtain ⟨c5, r5, l5, d5⟩ := mrun_grp_crep_shape digitC 3 4 m4.prev m4.rest m4.caps st h
  have hr2 : m2.rest = s.drop (3 + k1) := by rw [r2, r1, List.drop_drop]
  have hr3 : m3.rest = s.drop (3 + k1 + 2) := by rw [r3, hr2, List.drop_drop]
  have hr4 : m4.rest = s.drop (3 + k1 + 2 + k2) := by rw [r4, hr3, List.drop_drop]
  refine ⟨3 + k1 + 2 + k2, ?_, ?_, ?_, ?_⟩
  · rw [c5, hr4, c4, c3, c2, c1]
    simp [List.lookup]
  · rw [r5, hr4, List.drop_drop]
  · rw [hr4, List.length_drop] at l5
    omega
  · rw [hr4] at d5
    exact d5

theorem mrun_maskCC_shape (prev : Option Char) (s : List Char) (st : MState)
    (h : st ∈ mrun maskCCRegex prev s []) :
    ∃ j, List.lookup 4 st.caps = some ((s.drop j).take 4) ∧
      st.rest = s.drop (j + 4) ∧ j + 4 ≤ s.length ∧
      ((s.drop j).take 4).all Char.isDigit = true := by
  rw [show maskCCRegex = .seq (.grp 1 (cupto digitC 4)) (.seq (ropt maskSep2)
      (.seq (.grp 2 (cupto digitC 4)) (.seq (ropt maskSep2)
        (.seq (.grp 3 (cupto digitC 4)) (.seq (ropt maskSep2) (.grp 4 (crep digitC 4)))))))
    from rfl, mem_mrun_seq] at h
  obtain ⟨m1, hm1, h⟩ := h
  rw [mem_mrun_seq] at h
  obtain ⟨m2, hm2, h⟩ := h
  rw [mem_mrun_seq] at h
  obtain ⟨m3, hm3, h⟩ := h
  rw [mem_mrun_seq] at h
  obtain ⟨m4, hm4, h⟩ := h
  rw [mem_mrun_seq] at h
  obtain ⟨m5, hm5, h⟩ := h
  rw [mem_mrun_seq] at h
  obtain ⟨m6, hm6, h⟩ := h
  obtain ⟨a1, ha1, c1, r1, l1, d1⟩ := mrun_grp_cupto_shape digitC 1 4 prev s [] m1 hm1
  obtain ⟨c2, k1, hk1, r2, l2⟩ := mrun_ropt_cls_shape _ m1.prev m1.rest m1.caps m2 hm2
  obtain ⟨a2, ha2, c3, r3, l3, d3⟩ := mrun_grp_cupto_shape digitC 2 4 m2.prev m2.rest m2.caps m3 hm3
  obtain ⟨c4, k2, hk2, r4, l4⟩ := mrun_ropt_cls_shape _ m3.prev m3.rest m3.caps m4 hm4
  obtain ⟨a3, ha3, c5, r5, l5, d5⟩ := mrun_grp_cupto_shape digitC 3 4 m4.prev m4.rest m4.caps m5 hm5
  obtain ⟨c6, k3, hk3, r6, l6⟩ := mrun_ropt_cls_shape _ m5.prev m5.rest m5.caps m6 hm6
  obtain ⟨c7, r7, l7, d7⟩ := mrun_grp_crep_shape digitC 4 4 m6.prev m6.rest m6.caps st h
  have hr2 : m2.rest = s.drop (a1 + k1) := by rw [r2, r1, List.drop_drop]
  have hr3 : m3.rest = s.drop (a1 + k1 + a2) := by rw [r3, hr2, List.drop_drop]
  have hr4 : m4.rest = s.drop (a1 + k1 + a2 + k2) := by rw [r4, hr3, List.drop_drop]
  have hr5 : m5.rest = s.drop (a1 + k1 + a2 + k2 + a3) := by rw [r5, hr4, List.drop_drop]
  have hr6 : m6.rest = s.drop (a1 + k1 + a2 + k2 + a3 + k3) := by rw [r6, hr5, List.drop_drop]
  refine ⟨a1 + k1 + a2 + k2 + a3 + k3, ?_, ?_, ?_, ?_⟩
  · rw [c7, hr6, c6, c5, c4, c3, c2, c1]
    simp [List.lookup]
  · rw [r7, hr6, List.drop_drop]
  · rw [hr6, List.length_drop] at l7
    omega
  · rw [hr6] at d7
    exact d7

theorem c10_theorem :
    (∀ s : List Char, findSubmatch maskSSNRegex s = none → MaskSSN s = s) ∧
    (∀ (s : List Char) (st en : Nat) (caps : List (Nat × List Char)),
       findSubmatch maskSSNRegex s = some (st, en, caps) →
       ∃ g3, List.lookup 3 caps = some g3 ∧
         MaskSSN s = ("XXX-XX-").toList ++ g3 ∧
         g3.length = 4 ∧ g3.all Char.isDigit = true ∧
         st + 4 ≤ en ∧ en ≤ s.length ∧ g3 = (s.take en).drop (en - 4)) ∧
    (∀ s : List Char, findSubmatch maskCCRegex s = none → MaskCreditCard s = s) ∧
    (∀ (s : List Char) (st en : Nat) (caps : List (Nat × List Char)),
       findSubmatch maskCCRegex s = some (st, en, caps) →
       ∃ g4, List.lookup 4 caps = some g4 ∧
         MaskCreditCard s = ("XXXX-XXXX-XXXX-").toList ++ g4 ∧
         g4.length = 4 ∧ g4.all Char.isDigit = true ∧
         st + 4 ≤ en ∧ en ≤ s.length ∧ g4 = (s.take en).drop (en - 4)) := by
  refine ⟨fun s h => by simp [MaskSSN, h], fun s st en caps h => ?_,
    fun s h => by simp [MaskCreditCard, h], fun s st en caps h => ?_⟩
  · obtain ⟨j, prev2, stt, hmem, h1, h2, h3, hj⟩ :=
      findFromAux_some maskSSNRegex s none 0 (st, en, caps) h
    obtain ⟨j2, hlook, hrest, hlen, hdig⟩ := mrun_maskSSN_shape prev2 (s.drop j) stt hmem
    have hst : st = j := by simpa using h1
    have hcaps : caps = stt.caps := by simpa using h3
    have e1 : (s.drop j).length = s.length - j := by rw [List.length_drop]
    have e2 : stt.rest.length = (s.drop j).length - (j2 + 4) := by
      rw [hrest, List.length_drop]
    have hlen2 : j + (j2 + 4) ≤ s.length := by
      rw [e1] at hlen
      omega
    have hen : en = j + (j2 + 4) := by
      have h2s : en = st + ((s.drop j).length - stt.rest.length) := by simpa using h2
      rw [e2, e1] at h2s
      omega
    rw [List.drop_drop] at hlook hdig
    refine ⟨(s.drop (j + j2)).take 4, by rw [hcaps]; exact hlook, ?_, ?_, hdig, ?_, ?_, ?_⟩
    · simp only [MaskSSN, h]
      rw [hcaps, hlook]
      rfl
    · rw [List.length_take, List.length_drop]
      omega
    · omega
    · omega
    · have ha : en - 4 = j + j2 := by omega
      rw [List.drop_take, ha, show en - (j + j2) = 4 from by omega]
  · obtain ⟨j, prev2, stt, hmem, h1, h2, h3, hj⟩ :=
      findFromAux_some maskCCRegex s none 0 (st, en, caps) h
    obtain ⟨j2, hlook, hrest, hlen, hdig⟩ := mrun_maskCC_shape prev2 (s.drop j) stt hmem
    have hst : st = j := by simpa using h1
    have hcaps : caps = stt.caps := by simpa using h3
    have e1 : (s.drop j).length = s.length - j := by rw [List.length_drop]
    have e2 : stt.rest.length = (s.drop j).length - (j2 + 4) := by
      rw [hrest, List.length_drop]
    have hlen2 : j + (j2 + 4) ≤ s.length := by
      rw [e1] at hlen
      omega
    have hen : en = j + (j2 + 4) := by
      have h2s : en = st + ((s.drop j).length - stt.rest.length) := by simpa using h2
      rw [e2, e1] at h2s
      omega
    rw [List.drop_drop] at hlook hdig
    refine ⟨(s.drop (j + j2)).take 4, by rw [hcaps]; exact hlook, ?_, ?_, hdig, ?_, ?_, ?_⟩
    · simp only [MaskCreditCard, h]
      rw [hcaps, hlook]
      rfl
    · rw [List.length_take, List.length_drop]
      omega
    · omega
    · omega
    · have ha : en - 4 = j + j2 := by omega
      rw [List.drop_take, ha, show en - (j + j2) = 4 from by omega]

/-- C10 witness: the theorem applied at "no digits here" and "card"
(no match, input returned unchanged) and at "my ssn 123-45-6789 ok" and
"4111 1111 1111 2222" (concrete first matches). -/
theorem c10_witness :
    MaskSSN (("no digits here").toList) = ("no digits here").toList ∧
    MaskCreditCard (("card").toList) = ("card").toList ∧
    (∃ g3, List.lookup 3
        [(1, ['1', '2', '3']), (2, ['4', '5']), (3, ['6', '7', '8', '9'])] = some g3 ∧
      MaskSSN (("my ssn 123-45-6789 ok").toList) = ("XXX-XX-").toList ++ g3 ∧
      g3.length = 4 ∧ g3.all Char.isDigit = true ∧
      7 + 4 ≤ 18 ∧ 18 ≤ (("my ssn 123-45-6789 ok").toList).length ∧
      g3 = ((("my ssn 123-45-6789 ok").toList).take 18).drop (18 - 4)) ∧
    (∃ g4, List.lookup 4
        [(1, ['4', '1', '1', '1']), (2, ['1', '1', '1', '1']),
         (3, ['1', '1', '1', '1']), (4, ['2', '2', '2', '2'])] = some g4 ∧
      MaskCreditCard (("4111 1111 1111 2222").toList) =
        ("XXXX-XXXX-XXXX-").toList ++ g4 ∧
      g4.length = 4 ∧ g4.all Char.isDigit = true ∧
      0 + 4 ≤ 19 ∧ 19 ≤ (("4111 1111 1111 2222").toList).length ∧
      g4 = ((("4111 1111 1111 2222").toList).take 19).drop (19 - 4)) :=
  ⟨c10_theorem.1 _ rfl, c10_theorem.2.2.1 _ rfl,
   c10_theorem.2.1 _ 7 18 _ rfl, c10_theorem.2.2.2 _ 0 19 _ rfl⟩

end Piiredact
